import Mathlib

/-!
Verification of the host-side OpenVizsla capture stack (pyopenvizsla).

This file gives a shallow embedding, in Lean, of the parts of the Python
sources that the specification's claims are about:

* protocol.py  -- the packet dispatcher (OVPacketDispatcher / OVPacketHandler)
                  and the LFSR test handler,
* sniffer.py   -- the USBSniffer capture-record handler and the
                  USBInterpreter USB packet decoder,
* io.py        -- the IOConnection response handler,
* memory.py    -- the OVRegister byte-wise MMIO read/write,
* firmware.py  -- the register-map parser,
* device.py    -- sink registration (modelled from the spec where the
                  sink classes are absent from the sources).

Machine integers are modelled as Nat (with explicit masks where the Python
code masks); Python buffers are List Nat; fallible code returns Except.
Observability-only behaviour (building of message strings, printing) is not
modelled: only state changes, deliveries and raised exceptions are.
-/

/-! ### protocol.py : packet handlers and the dispatcher -/

/-- Result of OVPacketHandler.handle_bytes_received: the handler either raises
IncompletePacket, raises InappropriatePacket, or consumes a number of bytes. -/
inductive HandlerResult where
  | incomplete
  | inappropriate
  | handled (n : Nat)
deriving DecidableEq, Repr

/-- Static data of one OVPacketHandler subclass: the magic numbers it accepts
(HANDLED_PACKET_NUMBERS), its bytes_necessary_to_determine_size method, and
its _packet_size method. -/
structure OVPacketHandlerSpec where
  handledPacketNumbers : List Nat
  bytesNecessaryToDetermineSize : Nat → Nat
  packetSizeFn : List Nat → Nat

/-- OVPacketHandler.handles_packet_number. -/
def handles_packet_number (h : OVPacketHandlerSpec) (packet_number : Nat) : Bool :=
  packet_number ∈ h.handledPacketNumbers

/-- OVPacketHandler.packet_size: None while fewer bytes than
bytes_necessary_to_determine_size(data[0]) are available. -/
def packet_size (h : OVPacketHandlerSpec) (data : List Nat) : Option Nat :=
  if data.length < h.bytesNecessaryToDetermineSize (data.headD 0) then none
  else some (h.packetSizeFn data)

/-- OVPacketHandler.handle_bytes_received (protocol.py lines 152-173). -/
def handle_bytes_received (h : OVPacketHandlerSpec) (data : List Nat) : HandlerResult :=
  if data.length < 1 then .incomplete
  else if ¬ handles_packet_number h (data.headD 0) then .inappropriate
  else match packet_size h data with
    | none => .incomplete
    | some size => if data.length < size then .incomplete else .handled size

/-- IOConnection: HANDLED_PACKET_NUMBERS = [0x55], PACKET_SIZE = 5. -/
def ioConnectionHandler : OVPacketHandlerSpec where
  handledPacketNumbers := [0x55]
  bytesNecessaryToDetermineSize := fun _ => 1
  packetSizeFn := fun _ => 5

/-- LFSRTest: HANDLED_PACKET_NUMBERS = [0xAA], two bytes determine the size,
which is buf[1] + 2. -/
def lfsrTestHandler : OVPacketHandlerSpec where
  handledPacketNumbers := [0xAA]
  bytesNecessaryToDetermineSize := fun _ => 2
  packetSizeFn := fun buf => buf.getD 1 0 + 2

/-- USBSniffer: HANDLED_PACKET_NUMBERS = [0xac, 0xad, 0xa0]; an 0xa0 record
needs 5 bytes to size, its size is (buf[4] << 8 | buf[3]) + 8; other magics
are 2-byte tokens. -/
def usbSnifferHandler : OVPacketHandlerSpec where
  handledPacketNumbers := [0xac, 0xad, 0xa0]
  bytesNecessaryToDetermineSize := fun packet_number =>
    if packet_number = 0xa0 then 5 else 1
  packetSizeFn := fun buf =>
    if buf.headD 0 ≠ 0xa0 then 2
    else ((buf.getD 4 0) <<< 8 ||| buf.getD 3 0) + 8

/-- SDRAMHandler: HANDLED_PACKET_NUMBERS = [0xd0], two bytes determine the
size, which is (buf[1] + 1) * 2 + 2. -/
def sdramHandler : OVPacketHandlerSpec where
  handledPacketNumbers := [0xd0]
  bytesNecessaryToDetermineSize := fun _ => 2
  packetSizeFn := fun buf => (buf.getD 1 0 + 1) * 2 + 2

/-- DummyHandler: HANDLED_PACKET_NUMBERS = [0xe0, 0xe8], PACKET_SIZE = 3. -/
def dummyHandler : OVPacketHandlerSpec where
  handledPacketNumbers := [0xe0, 0xe8]
  bytesNecessaryToDetermineSize := fun _ => 1
  packetSizeFn := fun _ => 3

/-- Handlers registered on OVDevice, in registration order
(device.py, _set_up_io_handlers). -/
def deviceHandlers : List OVPacketHandlerSpec :=
  [ioConnectionHandler, lfsrTestHandler, usbSnifferHandler, sdramHandler, dummyHandler]

/-- Outcome of one pass of the dispatcher's for-loop over the handler list
(OVPacketDispatcher.handle_incoming_bytes, protocol.py lines 57-84).
The boolean carries the incomplete flag, which is only ever set, never
cleared, inside the while loop. -/
inductive ForPassResult where
  | consumed (n : Nat) (incomplete : Bool)
  | noConsume (incomplete : Bool)
  | strictRaise
deriving DecidableEq, Repr

/-- One pass of the dispatcher's for-loop: each handler is tried in order;
IncompletePacket sets the incomplete flag and continues; InappropriatePacket
continues; a nonzero byte count is consumed and breaks; a zero byte count
falls through to the strict-handling raise.  Note that the two continue
statements skip the strict-handling raise, so a pass in which every handler
raises ends with no consumption and no error. -/
def dispatchForPass : List OVPacketHandlerSpec → List Nat → Bool → ForPassResult
  | [], _, incomplete => .noConsume incomplete
  | h :: rest, buffer, incomplete =>
    match handle_bytes_received h buffer with
    | .incomplete => dispatchForPass rest buffer true
    | .inappropriate => dispatchForPass rest buffer incomplete
    | .handled n => if n ≠ 0 then .consumed n incomplete else .strictRaise

/-- Final outcome of handle_incoming_bytes: either the loop exits with the
remaining buffer, or the strict-handling raise fires. -/
inductive DispatchOutcome where
  | ok (remaining : List Nat)
  | strictError
deriving DecidableEq, Repr

/-- Fuel-indexed embedding of the dispatcher's while loop
(protocol.py lines 57-84).  The loop runs while the buffer is non-empty and
the incomplete flag is unset; none means the fuel ran out with the loop still
running (on the Python side: the loop has not terminated). -/
def handle_incoming_loop (handlers : List OVPacketHandlerSpec) :
    Nat → List Nat → Bool → Option DispatchOutcome
  | 0, _, _ => none
  | fuel + 1, buffer, incomplete =>
    if buffer = [] ∨ incomplete = true then some (.ok buffer)
    else
      match dispatchForPass handlers buffer incomplete with
      | .consumed n inc => handle_incoming_loop handlers fuel (buffer.drop n) inc
      | .noConsume inc => handle_incoming_loop handlers fuel buffer inc
      | .strictRaise => some .strictError

/-! ### sniffer.py : capture records (USBSniffer) and the USB decoder -/

/-- Flag bit HF0_FIRST: first packet of a capture session. -/
def HF0_FIRST : Nat := 0x10

/-- Flag bit HF0_LAST: last packet of a capture session. -/
def HF0_LAST : Nat := 0x20

/-- Event passed by USBSniffer.handle_usb to the USB decoder (and, through
handle_usb_verbose, to USBInterpreter.handlePacket): the timestamp, the
payload buf[8:], and the flags word. -/
structure CaptureEvent where
  ts : Nat
  buf : List Nat
  flags : Nat
deriving DecidableEq, Repr

/-- Flags word of an 0xA0 capture record: buf[1] | buf[2] << 8. -/
def captureFlags (buf : List Nat) : Nat :=
  buf.getD 1 0 ||| (buf.getD 2 0) <<< 8

/-- Timestamp of an 0xA0 capture record: buf[5] | buf[6] << 8 | buf[7] << 16. -/
def captureTs (buf : List Nat) : Nat :=
  buf.getD 5 0 ||| (buf.getD 6 0) <<< 8 ||| (buf.getD 7 0) <<< 16

/-- The record carries the FIRST flag. -/
def recFIRST (buf : List Nat) : Prop := captureFlags buf &&& HF0_FIRST ≠ 0

/-- The record carries the LAST flag. -/
def recLAST (buf : List Nat) : Prop := captureFlags buf &&& HF0_LAST ≠ 0

instance (buf : List Nat) : Decidable (recFIRST buf) := by
  unfold recFIRST; infer_instance

instance (buf : List Nat) : Decidable (recLAST buf) := by
  unfold recLAST; infer_instance

/-- Event delivered downstream for an armed record. -/
def captureEventOf (buf : List Nat) : CaptureEvent :=
  ⟨captureTs buf, buf.drop 8, captureFlags buf⟩

/-- USBSniffer.handle_packet (sniffer.py lines 221-239), restricted to the
state it touches: the got_start arming flag.  Returns the new flag and the
event delivered to handle_usb (none when nothing is delivered).  The PERR
print of unexpected flag values is observability only and is not modelled. -/
def usbSniffer_handle_packet (got_start : Bool) (buf : List Nat) :
    Bool × Option CaptureEvent :=
  if buf.headD 0 = 0xa0 then
    let flags := captureFlags buf
    let got_start := if flags &&& HF0_FIRST ≠ 0 then true else got_start
    let delivered := if got_start then some (captureEventOf buf) else none
    let got_start := if flags &&& HF0_LAST ≠ 0 then false else got_start
    (got_start, delivered)
  else (got_start, none)

/-- Arming flag after feeding a sequence of records through
USBSniffer.handle_packet. -/
def snifferArmedAfter (got_start : Bool) (records : List (List Nat)) : Bool :=
  records.foldl (fun g buf => (usbSniffer_handle_packet g buf).1) got_start

/-- Per-record delivery results of feeding a sequence of records through
USBSniffer.handle_packet (USBSniffer starts with got_start = False). -/
def snifferRun (got_start : Bool) : List (List Nat) → List (Option CaptureEvent)
  | [] => []
  | buf :: rest =>
    let step := usbSniffer_handle_packet got_start buf
    step.2 :: snifferRun step.1 rest

/-! ### sniffer.py : USBInterpreter (the USB packet decoder) -/

/-- Timestamp rollover period, ts_roll_cyc = 2 ** 24. -/
def ts_roll_cyc : Nat := 2 ^ 24

/-- Mutable state of USBInterpreter.  The data CRC function is a static
method and message/printing state is observability only; the state the
decoder branches on is kept. -/
structure USBInterpreterState where
  frameno : Option Nat
  subframe : Option Nat
  highspeed : Bool
  last_ts_frame : Nat
  last_ts_print : Nat
  last_ts_pkt : Nat
  ts_base : Nat
deriving DecidableEq, Repr

/-- USBInterpreter.__init__ (sniffer.py lines 31-41).  Note that the
constructor assigns the literal True to self.highspeed and never reads its
highspeed argument. -/
def usbInterpreter_init (highspeed : Bool) : USBInterpreterState :=
  { frameno := none
    subframe := some 0
    highspeed := true
    last_ts_frame := 0
    last_ts_print := 0
    last_ts_pkt := 0
    ts_base := 0 }

/-- Subframe update performed in the SOF branch of
USBInterpreter.handlePacket (sniffer.py lines 72-88), given the previous
frameno/subframe and the newly decoded frame number. -/
def sofSubframeUpdate (st : USBInterpreterState) (frameno : Nat) : Option Nat :=
  match st.frameno with
  | none => none
  | some fn =>
    match st.subframe with
    | none =>
      if frameno = (fn + 1) &&& 0xFF then
        (if st.highspeed then some 0 else none)
      else none
    | some sf =>
      let sf1 := sf + 1
      if sf1 = 8 then
        (if frameno = (fn + 1) &&& 0xFF then some 0 else none)
      else if fn ≠ frameno then none
      else some sf1

/-- USBInterpreter.handlePacket (sniffer.py lines 43-174), as a state
transformer returning the new state and the absolute timestamp
(ts + ts_base after rollover handling).  Only state changes are modelled;
the message built for printing is observability only.  In particular the
DATA/token/handshake branches change no decoder state, and the frame branch
(PID 0x5, at least 3 bytes) decodes the frame number as
buf[1] | (buf[2] << 8) & 0x7, where Python precedence applies the mask
after the shift. -/
def usbInterpreter_handlePacket (st : USBInterpreterState) (ts0 : Nat)
    (buf : List Nat) (flags : Nat) : USBInterpreterState × Nat :=
  let ts_delta_pkt : Int := (ts0 : Int) - (st.last_ts_pkt : Int)
  let st := { st with last_ts_pkt := ts0 }
  let st :=
    if ts_delta_pkt < 0 then { st with ts_base := st.ts_base + ts_roll_cyc } else st
  let ts := st.ts_base + ts0
  let decoded : USBInterpreterState × Bool :=
    if buf ≠ [] then
      let b0 := buf.headD 0
      let pid := b0 &&& 0xF
      if (b0 >>> 4) ^^^ 0xF ≠ pid then (st, false)
      else if pid = 0x5 then
        if buf.length < 3 then (st, false)
        else
          let frameno := buf.getD 1 0 ||| ((buf.getD 2 0) <<< 8) &&& 0x7
          ({ st with
              frameno := some frameno
              subframe := sofSubframeUpdate st frameno
              last_ts_frame := ts }, true)
      else (st, false)
    else (st, false)
  let st := decoded.1
  let st := if decoded.2 then st else { st with last_ts_print := ts }
  (st, ts)

/-- Absolute timestamps produced by feeding a sequence of raw 24-bit
hardware timestamps to the decoder (with empty payloads and no flags). -/
def interpAbsList (st : USBInterpreterState) : List Nat → List Nat
  | [] => []
  | t :: rest =>
    let step := usbInterpreter_handlePacket st t [] 0
    step.2 :: interpAbsList step.1 rest

/-- Construction-time state of USBSniffer (sniffer.py lines 199-209): the
handler stores highspeed = False, builds its decoder as
USBInterpreter(self.highspeed), and starts unarmed. -/
structure USBSnifferState where
  highspeed : Bool
  decoder : USBInterpreterState
  got_start : Bool
deriving DecidableEq, Repr

/-- USBSniffer.__init__. -/
def usbSniffer_init : USBSnifferState :=
  { highspeed := false
    decoder := usbInterpreter_init false
    got_start := false }

/-! ### io.py : IOConnection response handling -/

/-- ProtocolError raised by IOConnection.handle_packet on a bad checksum,
carrying the received and computed checksum bytes of its message. -/
inductive IOProtocolError where
  | badChecksum (received computed : Nat)
deriving DecidableEq, Repr

/-- IOConnection.handle_packet (io.py lines 32-45): validate the checksum of
a 5-byte 0x55 response frame and enqueue (buf[1] << 8 | buf[2], buf[3]) on
the response queue (queue.Queue.put appends at the tail). -/
def ioConnection_handle_packet (buf : List Nat) (queue : List (Nat × Nat)) :
    Except IOProtocolError (List (Nat × Nat)) :=
  let received_checksum := buf.getD 4 0
  let computed_checksum := (buf.take 4).sum &&& 0xFF
  if computed_checksum ≠ received_checksum then
    .error (.badChecksum received_checksum computed_checksum)
  else
    .ok (queue ++ [((buf.getD 1 0) <<< 8 ||| buf.getD 2 0, buf.getD 3 0)])

/-! ### memory.py : OVRegister byte-wise MMIO access -/

/-- Byte writes issued by OVRegister.write (memory.py lines 35-41): for i in
range(size), write (value >> (i * 8)) & 0xFF to address + size - 1 - i.
Each list element is an (address, byte) pair passed to the window's
write_byte collaborator, in call order. -/
def ovRegister_write (address size value : Nat) : List (Nat × Nat) :=
  (List.range size).map
    (fun i => (address + size - 1 - i, (value >>> (i * 8)) &&& 0xFF))

/-- OVRegister.read (memory.py lines 23-32): starting from shadow = 0, for i
in range(size) shift the shadow left 8 bits and or in the byte read from
address + i.  Returns the shadow together with the list of addresses read,
in call order. -/
def ovRegister_read (read_byte : Nat → Nat) (address size : Nat) : Nat × List Nat :=
  (List.range size).foldl
    (fun acc i => ((acc.1 <<< 8) ||| read_byte (address + i), acc.2 ++ [address + i]))
    (0, [])

/-- Effect of a list of (address, byte) writes on a byte store, applied in
order (a later write to the same address wins). -/
def applyWrites (store : Nat → Nat) (ops : List (Nat × Nat)) : Nat → Nat :=
  ops.foldl (fun s op => fun a => if a = op.1 then op.2 else s a) store

/-! ### protocol.py : LFSRTest handler -/

/-- Exceptions observable from LFSRTest.handle_packet. -/
inductive LFSRErr where
  | assertionError
  | indexError
deriving DecidableEq, Repr

/-- Mutable state of LFSRTest (total, state, error). -/
structure LFSRState where
  total : Nat
  state : Option Nat
  error : Nat
deriving DecidableEq, Repr

/-- LFSRTest state after reset: state = None, error = 0, total = 0. -/
def lfsrTest_init : LFSRState := ⟨0, none, 0⟩

/-- LFSRTest.handle_packet (protocol.py lines 205-215): assert the magic and
the length, add buf[1] to the running total, and when a previous state
exists compare buf[2] (an out-of-range index on a 2-byte frame, hence
IndexError) against the advanced LFSR state; finally latch buf[-1]. -/
def lfsrTest_handle_packet (st : LFSRState) (buf : List Nat) :
    Except LFSRErr LFSRState :=
  if buf.headD 0 ≠ 0xAA then .error .assertionError
  else if buf.getD 1 0 + 2 ≠ buf.length then .error .assertionError
  else
    let total := st.total + buf.getD 1 0
    match st.state with
    | some s =>
      match buf.get? 2 with
      | none => .error .indexError
      | some b2 =>
        let error := if b2 &&& 0xFE ≠ (s <<< 1) &&& 0xFE then 1 else st.error
        match buf.getLast? with
        | none => .error .indexError
        | some last => .ok ⟨total, some last, error⟩
    | none =>
      match buf.getLast? with
      | none => .error .indexError
      | some last => .ok ⟨total, some last, st.error⟩

/-! ### firmware.py : the register-map parser -/

/-- Errors raised while parsing a register-map file: ValueError from a failed
re.match ("could not parse") or from int(_, 16), and AssertionError from the
size sanity check. -/
inductive MapErr where
  | matchError
  | intValueError
  | assertionError
deriving DecidableEq, Repr

/-- Python str.isspace characters relevant to \s (ASCII subset). -/
def isPySpace (c : Char) : Bool :=
  c = ' ' ∨ c = '\t' ∨ c = '\n' ∨ c = '\x0b' ∨ c = '\x0c' ∨ c = '\r'

/-- Word character for the regex class \w (ASCII subset): alphanumeric or
underscore. -/
def isPyWord (c : Char) : Bool := c.isAlphanum ∨ c = '_'

/-- Hexadecimal digit test for int(_, 16). -/
def isHexDigitChar (c : Char) : Bool :=
  c.isDigit ∨ ('a' ≤ c ∧ c ≤ 'f') ∨ ('A' ≤ c ∧ c ≤ 'F')

/-- Value of a hexadecimal digit. -/
def hexDigitVal (c : Char) : Nat :=
  if c.isDigit then c.toNat - 48
  else if 'a' ≤ c ∧ c ≤ 'f' then c.toNat - 87
  else c.toNat - 55

/-- Digits-only part of int(s, 16): every character must be a hex digit. -/
def parseHexDigits (s : List Char) : Option Nat :=
  if s ≠ [] ∧ s.all isHexDigitChar then
    some (s.foldl (fun a c => a * 16 + hexDigitVal c) 0)
  else none

/-- int(s, 16), allowing the optional 0x/0X prefix Python accepts. -/
def parseHexInt (s : List Char) : Option Nat :=
  match s with
  | '0' :: 'x' :: rest => parseHexDigits rest
  | '0' :: 'X' :: rest => parseHexDigits rest
  | _ => parseHexDigits s

/-- Python str.strip(): drop leading and trailing whitespace. -/
def pyStrip (s : List Char) : List Char :=
  ((s.dropWhile isPySpace).reverse.dropWhile isPySpace).reverse

/-- One line of the register map (firmware.py lines 41-61): strip the line,
drop everything from the first '#' on, skip the line when empty; otherwise
match the anchored pattern of word, '=', word and an optional ':'-word
(trailing garbage is ignored, as re.match does not anchor the end), convert
the hex fields, and check size > 1 when an upper bound is given.  Returns
none for a skipped line, some (name, value, size) for a parsed binding. -/
def parseMapLine (line : List Char) : Except MapErr (Option (List Char × Nat × Int)) :=
  let stripped := pyStrip line
  let line1 := stripped.takeWhile (· ≠ '#')
  if line1 = [] then .ok none
  else
    let s0 := line1.dropWhile isPySpace
    let name := s0.takeWhile isPyWord
    let s1 := s0.dropWhile isPyWord
    if name = [] then .error .matchError
    else
      let s2 := s1.dropWhile isPySpace
      match s2 with
      | '=' :: s3 =>
        let s4 := s3.dropWhile isPySpace
        let valueStr := s4.takeWhile isPyWord
        let s5 := s4.dropWhile isPyWord
        if valueStr = [] then .error .matchError
        else
          let upperStr : Option (List Char) :=
            match s5 with
            | ':' :: s6 =>
              let u := s6.takeWhile isPyWord
              if u = [] then none else some u
            | _ => none
          match parseHexInt valueStr with
          | none => .error .intValueError
          | some value =>
            match upperStr with
            | none => .ok (some (name, value, (1 : Int)))
            | some u =>
              match parseHexInt u with
              | none => .error .intValueError
              | some upper =>
                let size : Int := (upper : Int) + 1 - (value : Int)
                if size > 1 then .ok (some (name, value, size))
                else .error .assertionError
      | _ => .error .matchError

/-- Python dict assignment register_map[name] = value, size: replace the
value in place when the key exists, append otherwise. -/
def dictInsert (m : List (List Char × Nat × Int)) (k : List Char) (v : Nat × Int) :
    List (List Char × Nat × Int) :=
  if m.any (fun p => p.1 = k) then
    m.map (fun p => if p.1 = k then (k, v.1, v.2) else p)
  else m ++ [(k, v.1, v.2)]

/-- Python dict lookup. -/
def dictLookup (m : List (List Char × Nat × Int)) (k : List Char) : Option (Nat × Int) :=
  (m.find? (fun p => p.1 = k)).map (fun p => (p.2.1, p.2.2))

/-- OVFirmwarePackage.get_register_map (firmware.py lines 32-63), starting
from an accumulated map: process the lines in order, inserting each parsed
binding into the dict. -/
def get_register_map_from (m : List (List Char × Nat × Int)) :
    List (List Char) → Except MapErr (List (List Char × Nat × Int))
  | [] => .ok m
  | line :: rest =>
    match parseMapLine line with
    | .error e => .error e
    | .ok none => get_register_map_from m rest
    | .ok (some (name, value, size)) =>
      get_register_map_from (dictInsert m name (value, size)) rest

/-- OVFirmwarePackage.get_register_map on the lines of the map file. -/
def get_register_map (lines : List (List Char)) :
    Except MapErr (List (List Char × Nat × Int)) :=
  get_register_map_from [] lines

/-! ### device.py / sniffer.py : sink registration -/

/-- Modelled from the spec: the USBEventSink machinery.  The sources import
USBEventSink from sniffer.py and OVDevice.register_sink (device.py lines
296-302) delegates to self.sniffer.register_sink, but the definitions of
USBEventSink, USBSniffer.register_sink and the sink delivery loop are absent
from the sources; per the spec, register_sink "attaches a consumer of
decoded USB events; multiple sinks allowed", and each decoded event is
delivered to every registered sink.  The sink list model: registering
appends the sink. -/
def register_sink {α : Type} (sinks : List α) (sink : α) : List α :=
  sinks ++ [sink]

/-- Modelled from the spec: delivery of one decoded USB event to the sinks.
Every registered sink receives the event. -/
def deliver_to_sinks {α : Type} (sinks : List α) (event : CaptureEvent) :
    List (α × CaptureEvent) :=
  sinks.map (fun s => (s, event))

/-! ### Arithmetic helper lemmas -/

/-- Bitwise or of a left-shifted value with a small value is addition. -/
theorem mul_pow_two_or_eq_add (n a : Nat) :
    ∀ b, b < 2 ^ n → (a * 2 ^ n) ||| b = a * 2 ^ n + b := by
  induction n generalizing a with
  | zero =>
    intro b hb
    interval_cases b
    simp
  | succ n ih =>
    intro b hb
    have hpow : (2 : Nat) ^ (n + 1) = 2 ^ n * 2 := by ring
    have hx2 : a * 2 ^ (n + 1) = (a * 2 ^ n) * 2 := by ring
    have hb2 : b / 2 < 2 ^ n := by omega
    have hdm := Nat.div_add_mod ((a * 2 ^ (n + 1)) ||| b) 2
    have hdiv : ((a * 2 ^ (n + 1)) ||| b) / 2 = (a * 2 ^ n) ||| (b / 2) := by
      rw [Nat.or_div_two]
      congr 1
      omega
    have hih := ih a (b / 2) hb2
    have hiff := @Nat.or_mod_two_eq_one (a * 2 ^ (n + 1)) b
    rw [hdiv, hih] at hdm
    omega

/-- Left shift by 8 then or with a byte is base-256 accumulation. -/
theorem shiftLeft8_or_byte (a b : Nat) (hb : b < 256) :
    (a <<< 8) ||| b = a * 256 + b := by
  have h := mul_pow_two_or_eq_add 8 a b (by norm_num [hb])
  rw [Nat.shiftLeft_eq]
  norm_num at h ⊢
  exact h

/-- Masking with 0xFF is reduction mod 256. -/
theorem and_255_eq_mod (x : Nat) : x &&& 0xFF = x % 256 := by
  have h := Nat.and_pow_two_sub_one_eq_mod x 8
  norm_num at h
  exact h

/-! ### Claim C1 : SOF frame number decoding -/

/-- C1: the spec states that for an SOF packet (PID nibble 0x5, at least 3
bytes) the decoded frame number is buf[1] | (buf[2] & 0x07) << 8.  The code
(sniffer.py line 71) instead computes buf[1] | (buf[2] << 8) & 0x7, in which
Python operator precedence applies the & 0x7 mask to the already-shifted
value, so the decoded frame number is always just buf[1].  Witnessed on the
valid SOF packet a5 00 01: the decoder state records frame number 0 while
the specified formula yields 0x100. -/
theorem c1_sof_frame_number :
    (usbInterpreter_handlePacket (usbInterpreter_init false) 0 [0xA5, 0x00, 0x01] 0).1.frameno
      = some 0
    ∧ (([0xA5, 0x00, 0x01].getD 1 0 ||| (([0xA5, 0x00, 0x01].getD 2 0 &&& 0x07) <<< 8) : Nat)
        = 0x100)
    ∧ (0 : Nat) ≠ 0x100 := by
  refine ⟨rfl, by decide, by decide⟩

/-! ### Claim C9 : zero-length LFSR frames -/

/-- C9: the spec states that a 0xAA frame with length field 0 increments the
total by 0 and raises no error, at every position in the stream.  This holds
only for the first handled frame: once an earlier 0xAA frame has set
self.state (here to 7, via the frame aa 01 07), handling the 2-byte frame
aa 00 evaluates buf[2] on a 2-byte buffer and raises IndexError
(protocol.py line 212). -/
theorem c9_lfsr_zero_length_frame :
    lfsrTest_handle_packet lfsrTest_init [0xAA, 0x00] = .ok ⟨0, some 0, 0⟩
    ∧ lfsrTest_handle_packet lfsrTest_init [0xAA, 0x01, 0x07] = .ok ⟨1, some 7, 0⟩
    ∧ lfsrTest_handle_packet ⟨1, some 7, 0⟩ [0xAA, 0x00] = .error .indexError := by
  refine ⟨rfl, rfl, rfl⟩

/-! ### Claim C10 : the decoder's highspeed field -/

/-- C10: USBInterpreter.__init__ assigns the literal True to self.highspeed
regardless of its highspeed argument (sniffer.py line 34), so the
constructed state is identical for every argument; USBSniffer constructs its
decoder with highspeed = False yet the decoder's highspeed field is True. -/
theorem c10_highspeed_always_true :
    (∀ highspeed : Bool,
        (usbInterpreter_init highspeed).highspeed = true
        ∧ usbInterpreter_init highspeed = usbInterpreter_init true)
    ∧ usbSniffer_init.highspeed = false
    ∧ usbSniffer_init.decoder.highspeed = true :=
  ⟨fun _ => ⟨rfl, rfl⟩, rfl, rfl⟩

/-! ### Claim C3 : unmatched magic bytes in the dispatcher -/

/-- C3: the spec states that a pending buffer whose first byte no registered
handler accepts fails with an unmatched-magic protocol error naming the
byte.  In the code (protocol.py lines 57-84) every handler raises
InappropriatePacket for such a buffer, each continue statement skips the
strict-handling raise, and the for-loop pass ends with nothing consumed, no
error, and the incomplete flag still unset - so the while loop re-runs the
identical pass forever.  With the device's registered handlers and the
buffer [0x42], the pass consumes nothing and raises nothing, and the loop
does not terminate for any amount of fuel. -/
theorem c3_unmatched_magic_loops_forever :
    dispatchForPass deviceHandlers [0x42] false = .noConsume false
    ∧ ∀ fuel, handle_incoming_loop deviceHandlers fuel [0x42] false = none := by
  have hpass : dispatchForPass deviceHandlers [0x42] false = .noConsume false := by decide
  refine ⟨hpass, ?_⟩
  intro fuel
  induction fuel with
  | zero => rfl
  | succ n ih =>
    have hcond : ¬(([0x42] : List Nat) = [] ∨ false = true) := by simp
    simp only [handle_incoming_loop, if_neg hcond, hpass]
    exact ih

/-! ### Claim C4 : I/O response checksum handling -/

/-- C4: for a 5-byte 0x55 response frame, IOConnection.handle_packet raises
a bad-checksum ProtocolError exactly when sum(buf[0:4]) & 0xFF differs from
buf[4]; on a matching checksum it appends exactly (buf[1] << 8 | buf[2],
buf[3]) to the response queue and changes nothing else. -/
theorem c4_io_checksum (buf : List Nat) (queue : List (Nat × Nat))
    (h5 : buf.length = 5) :
    ((∃ e, ioConnection_handle_packet buf queue = .error e) ↔
        (buf.take 4).sum &&& 0xFF ≠ buf.getD 4 0)
    ∧ ((buf.take 4).sum &&& 0xFF = buf.getD 4 0 →
        ioConnection_handle_packet buf queue =
          .ok (queue ++ [((buf.getD 1 0) <<< 8 ||| buf.getD 2 0, buf.getD 3 0)])) := by
  have hdef : ioConnection_handle_packet buf queue =
      if (buf.take 4).sum &&& 0xFF ≠ buf.getD 4 0 then
        .error (.badChecksum (buf.getD 4 0) ((buf.take 4).sum &&& 0xFF))
      else .ok (queue ++ [((buf.getD 1 0) <<< 8 ||| buf.getD 2 0, buf.getD 3 0)]) := rfl
  rw [hdef]
  by_cases h : (buf.take 4).sum &&& 0xFF = buf.getD 4 0
  · rw [if_neg (not_not_intro h)]
    constructor
    · simp [h]
    · intro _
      rfl
  · rw [if_pos h]
    refine ⟨⟨fun _ => h, fun _ => ⟨_, rfl⟩⟩, fun hc => absurd hc h⟩

/-- Witness for c4_io_checksum: the frame 55 80 10 ab 90 has a valid
checksum (0x55 + 0x80 + 0x10 + 0xab = 0x190) and enqueues (0x8010, 0xab). -/
theorem c4_io_checksum_witness :
    ([0x55, 0x80, 0x10, 0xAB, 0x90] : List Nat).length = 5
    ∧ (([0x55, 0x80, 0x10, 0xAB, 0x90] : List Nat).take 4).sum &&& 0xFF = 0x90
    ∧ ioConnection_handle_packet [0x55, 0x80, 0x10, 0xAB, 0x90] [] =
        .ok [(0x8010, 0xAB)] :=
  ⟨rfl, by decide, (c4_io_checksum [0x55, 0x80, 0x10, 0xAB, 0x90] [] rfl).2 (by decide)⟩

/-! ### Claim C6 : sink registration -/

/-- Elements of the initial sink list survive a fold of registrations. -/
theorem mem_foldl_register_sink_of_mem {α : Type} (more : List α) :
    ∀ (sinks : List α) (x : α), x ∈ sinks → x ∈ more.foldl register_sink sinks := by
  induction more with
  | nil => intro sinks x hx; exact hx
  | cons s rest ih =>
    intro sinks x hx
    exact ih (register_sink sinks s) x (by simp [register_sink, hx])

/-- C6: registering a sink attaches it (it appears in the sink list, all
previously registered sinks are kept, and it receives every subsequently
delivered decoded event), and registering several distinct sinks in turn
attaches all of them.  Modelled from the spec, as the sink machinery is
absent from the sources (see register_sink). -/
theorem c6_register_sink {α : Type} (sinks : List α) (sink : α) (event : CaptureEvent) :
    sink ∈ register_sink sinks sink
    ∧ (∀ s ∈ sinks, s ∈ register_sink sinks sink)
    ∧ (sink, event) ∈ deliver_to_sinks (register_sink sinks sink) event
    ∧ (∀ (more : List α) (x : α), x ∈ more → x ∈ more.foldl register_sink sinks) := by
  refine ⟨by simp [register_sink], fun s hs => by simp [register_sink, hs], ?_, ?_⟩
  · simp [deliver_to_sinks, register_sink]
  · intro more
    induction more generalizing sinks with
    | nil => intro x hx; cases hx
    | cons s rest ih =>
      intro x hx
      rcases List.mem_cons.mp hx with rfl | hx
      · exact mem_foldl_register_sink_of_mem rest (register_sink sinks x) x
          (by simp [register_sink])
      · exact ih (register_sink sinks s) x hx

/-- Witness for c6_register_sink: registering sinks 5 then 3 on the sink
list [1, 2] keeps 1 and attaches both 5 and 3, and 5 receives a delivered
event. -/
theorem c6_register_sink_witness :
    (1 : Nat) ∈ ([1, 2] : List Nat)
    ∧ (1 : Nat) ∈ register_sink [1, 2] 5
    ∧ (3 : Nat) ∈ ([5, 3] : List Nat)
    ∧ (3 : Nat) ∈ ([5, 3] : List Nat).foldl register_sink [1, 2]
    ∧ ((5 : Nat), (⟨0, [], 0⟩ : CaptureEvent)) ∈
        deliver_to_sinks (register_sink [1, 2] 5) ⟨0, [], 0⟩ :=
  ⟨by decide,
   (c6_register_sink [1, 2] 5 ⟨0, [], 0⟩).2.1 1 (by decide),
   by decide,
   (c6_register_sink [1, 2] 5 ⟨0, [], 0⟩).2.2.2 [5, 3] 3 (by decide),
   (c6_register_sink [1, 2] 5 ⟨0, [], 0⟩).2.2.1⟩

/-! ### Claim C8 : duplicate names in the register map -/

/-- C8 counterexample: the spec states that two non-comment lines binding
the same NAME are a parse error.  The code (firmware.py line 61) performs a
plain dict assignment, so on the two individually well-formed lines
"A = 1" and "A = 2" parsing succeeds and the later binding silently wins. -/
theorem c8_duplicate_counterexample :
    get_register_map ["A = 1".toList, "A = 2".toList] = .ok [(['A'], 2, 1)]
    ∧ ∀ e, get_register_map ["A = 1".toList, "A = 2".toList] ≠ .error e := by
  have hok : get_register_map ["A = 1".toList, "A = 2".toList] = .ok [(['A'], 2, 1)] := rfl
  refine ⟨hok, fun e he => ?_⟩
  rw [hok] at he
  exact Except.noConfusion he

/-! ### Claim C7 : timestamp reconstruction -/

/-- Timestamp bookkeeping of USBInterpreter.handlePacket: the raw timestamp
is latched, ts_base grows by ts_roll_cyc exactly when the raw timestamp went
backwards, and the returned absolute timestamp is the updated base plus the
raw timestamp.  The USB decode portion touches none of these fields. -/
theorem interp_hp_ts_fields (st : USBInterpreterState) (ts0 : Nat)
    (buf : List Nat) (flags : Nat) :
    (usbInterpreter_handlePacket st ts0 buf flags).1.last_ts_pkt = ts0
    ∧ (usbInterpreter_handlePacket st ts0 buf flags).1.ts_base =
        (if ts0 < st.last_ts_pkt then st.ts_base + ts_roll_cyc else st.ts_base)
    ∧ (usbInterpreter_handlePacket st ts0 buf flags).2 =
        (if ts0 < st.last_ts_pkt then st.ts_base + ts_roll_cyc else st.ts_base) + ts0 := by
  have hiff : ((ts0 : Int) - (st.last_ts_pkt : Int) < 0) ↔ (ts0 < st.last_ts_pkt) := by
    omega
  unfold usbInterpreter_handlePacket
  simp only [hiff]
  by_cases hts : ts0 < st.last_ts_pkt <;>
    simp only [hts, if_true, if_false, reduceIte] <;>
    (repeat' split) <;> simp

/-- Invariant behind timestamp monotonicity: starting from a state whose
latched raw timestamp is in range, the previous absolute timestamp
(ts_base + last_ts_pkt) is a lower bound for every absolute timestamp the
decoder produces on raw 24-bit timestamps. -/
theorem interpAbsList_chain (l : List Nat) :
    ∀ st : USBInterpreterState, st.last_ts_pkt < ts_roll_cyc →
    (∀ t ∈ l, t < ts_roll_cyc) →
    List.Chain' (· ≤ ·) ((st.ts_base + st.last_ts_pkt) :: interpAbsList st l) := by
  induction l with
  | nil =>
    intro st _ _
    simp [interpAbsList]
  | cons t rest ih =>
    intro st hlast hl
    have ht : t < ts_roll_cyc := hl t (List.mem_cons_self t rest)
    obtain ⟨h1, h2, h3⟩ := interp_hp_ts_fields st t [] 0
    have hrest : ∀ x ∈ rest, x < ts_roll_cyc := fun x hx => hl x (List.mem_cons_of_mem t hx)
    have hchain := ih (usbInterpreter_handlePacket st t [] 0).1 (by rw [h1]; exact ht) hrest
    rw [h2] at hchain
    rw [h1] at hchain
    show List.Chain' (· ≤ ·)
      ((st.ts_base + st.last_ts_pkt) ::
        (usbInterpreter_handlePacket st t [] 0).2 ::
        interpAbsList (usbInterpreter_handlePacket st t [] 0).1 rest)
    rw [List.chain'_cons]
    constructor
    · rw [h3]
      by_cases hc : t < st.last_ts_pkt <;> simp only [hc, if_true, if_false, reduceIte] <;>
        unfold ts_roll_cyc at * <;> omega
    · rw [h3]
      exact hchain

/-- C7: whenever an incoming 24-bit timestamp is smaller than the previous
one, 2^24 is added to ts_base before the absolute timestamp
ts_base + ts is computed (sniffer.py lines 49-55), and across any sequence
of raw timestamps below 2^24 the produced absolute timestamps are
non-decreasing. -/
theorem c7_timestamp_reconstruction :
    (∀ (st : USBInterpreterState) (ts0 : Nat) (buf : List Nat) (flags : Nat),
        (usbInterpreter_handlePacket st ts0 buf flags).1.ts_base =
          (if ts0 < st.last_ts_pkt then st.ts_base + 2 ^ 24 else st.ts_base)
        ∧ (usbInterpreter_handlePacket st ts0 buf flags).2 =
          (if ts0 < st.last_ts_pkt then st.ts_base + 2 ^ 24 else st.ts_base) + ts0)
    ∧ ∀ (highspeed : Bool) (l : List Nat), (∀ t ∈ l, t < 2 ^ 24) →
        List.Chain' (· ≤ ·) (interpAbsList (usbInterpreter_init highspeed) l) := by
  constructor
  · intro st ts0 buf flags
    obtain ⟨_, h2, h3⟩ := interp_hp_ts_fields st ts0 buf flags
    exact ⟨h2, h3⟩
  · intro b l hl
    have h := interpAbsList_chain l (usbInterpreter_init b)
      (by norm_num [usbInterpreter_init, ts_roll_cyc])
      (by simpa [ts_roll_cyc] using hl)
    exact h.tail

/-- Witness for c7_timestamp_reconstruction: the spec's wrap scenario, raw
timestamps 0xFFFFF0 then 0x000010, gives the non-decreasing absolute
timestamps 0xFFFFF0, 0x1000010. -/
theorem c7_timestamp_reconstruction_witness :
    (∀ t ∈ ([0xFFFFF0, 0x10] : List Nat), t < 2 ^ 24)
    ∧ List.Chain' (· ≤ ·) (interpAbsList (usbInterpreter_init false) [0xFFFFF0, 0x10])
    ∧ interpAbsList (usbInterpreter_init false) [0xFFFFF0, 0x10] = [0xFFFFF0, 0x1000010] :=
  ⟨by decide, c7_timestamp_reconstruction.2 false _ (by decide), by decide⟩

/-! ### Claim C2 : capture arming -/

/-- Arming flag after one 0xA0 record: LAST clears it (after delivery),
otherwise FIRST sets it, otherwise it is unchanged. -/
theorem sniffer_step_fst (g : Bool) (buf : List Nat) (h : buf.headD 0 = 0xa0) :
    (usbSniffer_handle_packet g buf).1 =
      if recLAST buf then false else if recFIRST buf then true else g := by
  unfold usbSniffer_handle_packet
  rw [if_pos h]
  by_cases hL : captureFlags buf &&& HF0_LAST ≠ 0 <;>
    by_cases hF : captureFlags buf &&& HF0_FIRST ≠ 0 <;>
      simp [recLAST, recFIRST, hL, hF]

/-- Delivery for one 0xA0 record: the event is delivered exactly when the
handler was armed before the record or the record carries FIRST. -/
theorem sniffer_step_snd (g : Bool) (buf : List Nat) (h : buf.headD 0 = 0xa0) :
    (usbSniffer_handle_packet g buf).2 =
      if g = true ∨ recFIRST buf then some (captureEventOf buf) else none := by
  unfold usbSniffer_handle_packet
  rw [if_pos h]
  cases g <;> by_cases hF : captureFlags buf &&& HF0_FIRST ≠ 0 <;>
    simp [recFIRST, hF]

/-- snifferArmedAfter distributes over list append. -/
theorem snifferArmedAfter_append (g : Bool) (l1 l2 : List (List Nat)) :
    snifferArmedAfter g (l1 ++ l2) = snifferArmedAfter (snifferArmedAfter g l1) l2 := by
  simp [snifferArmedAfter, List.foldl_append]

/-- Without a FIRST flag the handler never becomes armed. -/
theorem snifferArmed_false_of_no_first (l : List (List Nat)) :
    ∀ g : Bool, g = false → (∀ r ∈ l, r.headD 0 = 0xa0) → (∀ r ∈ l, ¬ recFIRST r) →
    snifferArmedAfter g l = false := by
  induction l with
  | nil => intro g hg _ _; simpa [snifferArmedAfter] using hg
  | cons r rest ih =>
    intro g hg h0 hF
    show snifferArmedAfter (usbSniffer_handle_packet g r).1 rest = false
    apply ih
    · rw [sniffer_step_fst g r (h0 r (by simp))]
      have := hF r (by simp)
      by_cases hL : recLAST r <;> simp [hL, this, hg]
    · intro x hx; exact h0 x (by simp [hx])
    · intro x hx; exact hF x (by simp [hx])

/-- Without a LAST flag an armed handler stays armed. -/
theorem snifferArmed_true_of_no_last (l : List (List Nat)) :
    ∀ g : Bool, g = true → (∀ r ∈ l, r.headD 0 = 0xa0) → (∀ r ∈ l, ¬ recLAST r) →
    snifferArmedAfter g l = true := by
  induction l with
  | nil => intro g hg _ _; simpa [snifferArmedAfter] using hg
  | cons r rest ih =>
    intro g hg h0 hL
    show snifferArmedAfter (usbSniffer_handle_packet g r).1 rest = true
    apply ih
    · rw [sniffer_step_fst g r (h0 r (by simp))]
      have := hL r (by simp)
      by_cases hF : recFIRST r <;> simp [hF, this, hg]
    · intro x hx; exact h0 x (by simp [hx])
    · intro x hx; exact hL x (by simp [hx])

/-- Delivery result of the record that follows a given prefix of records:
indexing the run at the prefix length gives the step applied to the armed
state accumulated over the prefix. -/
theorem snifferRun_getD (l1 : List (List Nat)) :
    ∀ (g : Bool) (b : List Nat) (l2 : List (List Nat)),
    (snifferRun g (l1 ++ b :: l2)).getD l1.length none =
      (usbSniffer_handle_packet (snifferArmedAfter g l1) b).2 := by
  induction l1 with
  | nil => intro g b l2; rfl
  | cons r rest ih =>
    intro g b l2
    show (snifferRun g (r :: (rest ++ b :: l2))).getD (rest.length + 1) none = _
    rw [snifferRun]
    rw [List.getD_cons_succ]
    exact ih (usbSniffer_handle_packet g r).1 b l2

/-- C2: capture arming for a stream of 0xA0 records.  For the record b at
position prior ++ f :: mid ++ [b] ++ rest of the stream (all records carry
the 0xA0 magic): (i) if no record up to and including b carries FIRST then
b is not delivered; (ii) a record carrying FIRST is itself delivered;
(iii) if f carries FIRST and no record from f up to but excluding b carries
LAST, then b is delivered - including when b itself carries LAST; (iv) if f
carries LAST and no record after f up to and including b carries FIRST,
then b is not delivered. -/
theorem c2_capture_arming
    (prior mid rest : List (List Nat)) (f b : List Nat)
    (hmagic : ∀ r ∈ prior ++ f :: mid ++ b :: rest, r.headD 0 = 0xa0) :
    ((∀ r ∈ prior ++ f :: mid, ¬ recFIRST r) → ¬ recFIRST b →
      (snifferRun false (prior ++ f :: mid ++ b :: rest)).getD
        (prior.length + 1 + mid.length) none = none)
    ∧ (recFIRST b →
      (snifferRun false (prior ++ f :: mid ++ b :: rest)).getD
        (prior.length + 1 + mid.length) none = some (captureEventOf b))
    ∧ (recFIRST f → (∀ r ∈ f :: mid, ¬ recLAST r) →
      (snifferRun false (prior ++ f :: mid ++ b :: rest)).getD
        (prior.length + 1 + mid.length) none = some (captureEventOf b))
    ∧ (recLAST f → (∀ r ∈ mid, ¬ recFIRST r) → ¬ recFIRST b →
      (snifferRun false (prior ++ f :: mid ++ b :: rest)).getD
        (prior.length + 1 + mid.length) none = none) := by
  have hsplit : prior ++ f :: mid ++ b :: rest = (prior ++ f :: mid) ++ b :: rest := by
    simp
  have hpos : prior.length + 1 + mid.length = (prior ++ f :: mid).length := by
    simp
    omega
  have hb0 : b.headD 0 = 0xa0 := hmagic b (by simp)
  have hf0 : f.headD 0 = 0xa0 := hmagic f (by simp)
  have hget : (snifferRun false (prior ++ f :: mid ++ b :: rest)).getD
      (prior.length + 1 + mid.length) none =
      (usbSniffer_handle_packet (snifferArmedAfter false (prior ++ f :: mid)) b).2 := by
    rw [hsplit, hpos]
    exact snifferRun_getD (prior ++ f :: mid) false b rest
  have harm : snifferArmedAfter false (prior ++ f :: mid) =
      snifferArmedAfter (snifferArmedAfter false prior) (f :: mid) :=
    snifferArmedAfter_append false prior (f :: mid)
  refine ⟨?_, ?_, ?_, ?_⟩
  · intro hnoF hFb
    rw [hget, sniffer_step_snd _ b hb0]
    have hA : snifferArmedAfter false (prior ++ f :: mid) = false := by
      apply snifferArmed_false_of_no_first (prior ++ f :: mid) false rfl
      · intro x hx
        exact hmagic x (by simp at hx ⊢; tauto)
      · exact hnoF
    rw [hA]
    simp [hFb]
  · intro hFb
    rw [hget, sniffer_step_snd _ b hb0]
    simp [hFb]
  · intro hFf hnoL
    rw [hget, sniffer_step_snd _ b hb0]
    have hA : snifferArmedAfter false (prior ++ f :: mid) = true := by
      rw [harm]
      show snifferArmedAfter
        (snifferArmedAfter (snifferArmedAfter false prior) [f]) mid = true
      apply snifferArmed_true_of_no_last mid
      · show (usbSniffer_handle_packet (snifferArmedAfter false prior) f).1 = true
        rw [sniffer_step_fst _ f hf0]
        have hLf : ¬ recLAST f := hnoL f (by simp)
        simp [hLf, hFf]
      · intro x hx
        exact hmagic x (by simp at hx ⊢; tauto)
      · intro x hx
        exact hnoL x (by simp [hx])
    rw [hA]
    simp
  · intro hLf hnoF hFb
    rw [hget, sniffer_step_snd _ b hb0]
    have hA : snifferArmedAfter false (prior ++ f :: mid) = false := by
      rw [harm]
      show snifferArmedAfter
        (snifferArmedAfter (snifferArmedAfter false prior) [f]) mid = false
      apply snifferArmed_false_of_no_first mid
      · show (usbSniffer_handle_packet (snifferArmedAfter false prior) f).1 = false
        rw [sniffer_step_fst _ f hf0]
        simp [hLf]
      · intro x hx
        exact hmagic x (by simp at hx ⊢; tauto)
      · exact hnoF
    rw [hA]
    simp [hFb]

/-- Witness for c2_capture_arming: the FIRST record arms the session and a
later record carrying LAST is still delivered (clause iii) with its payload
and flags. -/
theorem c2_capture_arming_witness :
    (∀ r ∈ [[0xa0, 0x10, 0, 0, 0, 0, 0, 0, 0xDE],
            [0xa0, 0x00, 0, 0, 0, 0, 0, 0],
            [0xa0, 0x20, 0, 0, 0, 0x10, 0, 0]], r.headD 0 = 0xa0)
    ∧ recFIRST [0xa0, 0x10, 0, 0, 0, 0, 0, 0, 0xDE]
    ∧ (∀ r ∈ [[0xa0, 0x10, 0, 0, 0, 0, 0, 0, 0xDE],
              [0xa0, 0x00, 0, 0, 0, 0, 0, 0]], ¬ recLAST r)
    ∧ (snifferRun false
        [[0xa0, 0x10, 0, 0, 0, 0, 0, 0, 0xDE],
         [0xa0, 0x00, 0, 0, 0, 0, 0, 0],
         [0xa0, 0x20, 0, 0, 0, 0x10, 0, 0]]).getD 2 none =
        some (captureEventOf [0xa0, 0x20, 0, 0, 0, 0x10, 0, 0]) :=
  ⟨by decide, by decide, by decide,
   (c2_capture_arming [] [[0xa0, 0x00, 0, 0, 0, 0, 0, 0]] []
      [0xa0, 0x10, 0, 0, 0, 0, 0, 0, 0xDE]
      [0xa0, 0x20, 0, 0, 0, 0x10, 0, 0] (by decide)).2.2.1 (by decide) (by decide)⟩

/-! ### Claim C5 : MMIO endianness and the write/read round trip -/

/-- Peeling off the last byte-write: writing a register of size + 1 at
address performs the writes of a size-register at address + 1 (the more
significant bytes) followed by the most significant byte at address. -/
theorem ovRegister_write_succ (address size value : Nat) :
    ovRegister_write address (size + 1) value =
      ovRegister_write (address + 1) size value ++
        [(address, (value >>> (size * 8)) &&& 0xFF)] := by
  unfold ovRegister_write
  rw [List.range_succ, List.map_append]
  congr 1
  · apply List.map_congr_left
    intro i hi
    have hlt : i < size := List.mem_range.mp hi
    have : address + (size + 1) - 1 - i = address + 1 + size - 1 - i := by omega
    rw [this]
  · have : address + (size + 1) - 1 - size = address := by omega
    simp [this]

/-- The byte store after the writes of OVRegister.write holds, at offset j
of the register, the byte of the value that is size - 1 - j bytes from the
bottom (big-endian layout). -/
theorem applyWrites_ovRegister_write (store : Nat → Nat) (value : Nat) :
    ∀ size address j, j < size →
    applyWrites store (ovRegister_write address size value) (address + j) =
      (value >>> ((size - 1 - j) * 8)) &&& 0xFF := by
  intro size
  induction size with
  | zero => intro address j hj; omega
  | succ n ih =>
    intro address j hj
    rw [ovRegister_write_succ]
    have happ : ∀ x, applyWrites store
        (ovRegister_write (address + 1) n value ++
          [(address, (value >>> (n * 8)) &&& 0xFF)]) x =
        if x = address then (value >>> (n * 8)) &&& 0xFF
        else applyWrites store (ovRegister_write (address + 1) n value) x := by
      intro x
      simp [applyWrites, List.foldl_append]
    rw [happ]
    match j with
    | 0 =>
      simp
    | j' + 1 =>
      have hne : address + (j' + 1) ≠ address := by omega
      rw [if_neg hne]
      have hx : address + (j' + 1) = (address + 1) + j' := by omega
      rw [hx, ih (address + 1) j' (by omega)]
      congr 2
      omega

/-- Addresses read by OVRegister.read: address up to address + size - 1, in
increasing order, regardless of the store. -/
theorem ovRegister_read_trace (store : Nat → Nat) :
    ∀ (size address a : Nat) (tr : List Nat),
    ((List.range size).foldl
      (fun acc i => ((acc.1 <<< 8) ||| store (address + i), acc.2 ++ [address + i]))
      (a, tr)).2 = tr ++ (List.range size).map (fun i => address + i) := by
  intro size
  induction size with
  | zero => intro address a tr; simp
  | succ n ih =>
    intro address a tr
    rw [List.range_succ, List.foldl_append, List.map_append]
    have h := ih address a tr
    simp only [List.foldl_cons, List.foldl_nil]
    rw [h]
    simp

/-- Value accumulated by OVRegister.read over a store of bytes: the shadow
shift-or loop computes base-256 accumulation of the bytes read. -/
theorem ovRegister_read_value (store : Nat → Nat) :
    ∀ (size address a : Nat) (tr : List Nat),
    (∀ i, i < size → store (address + i) < 256) →
    ((List.range size).foldl
      (fun acc i => ((acc.1 <<< 8) ||| store (address + i), acc.2 ++ [address + i]))
      (a, tr)).1 =
      a * 256 ^ size +
        (List.range size).foldl (fun acc i => acc * 256 + store (address + i)) 0 := by
  intro size
  induction size with
  | zero => intro address a tr _; simp
  | succ n ih =>
    intro address a tr hbytes
    rw [List.range_succ, List.foldl_append, List.foldl_append]
    simp only [List.foldl_cons, List.foldl_nil]
    have hv := ih address a tr (fun i hi => hbytes i (by omega))
    rw [shiftLeft8_or_byte _ _ (hbytes n (by omega)), hv]
    have hpow : (256 : Nat) ^ (n + 1) = 256 ^ n * 256 := by ring
    rw [hpow]
    ring

/-- Base-256 accumulation of the big-endian bytes of a value reconstructs
the value modulo 256 ^ size. -/
theorem bigEndianDigits_foldl (store : Nat → Nat) :
    ∀ (size address value : Nat),
    (∀ j, j < size → store (address + j) = (value >>> ((size - 1 - j) * 8)) &&& 0xFF) →
    (List.range size).foldl (fun acc i => acc * 256 + store (address + i)) 0 =
      value % 256 ^ size := by
  intro size
  induction size with
  | zero => intro address value _; simp [Nat.mod_one]
  | succ n ih =>
    intro address value h
    rw [List.range_succ, List.foldl_append]
    simp only [List.foldl_cons, List.foldl_nil]
    have hpre : ∀ j, j < n →
        store (address + j) = ((value >>> 8) >>> ((n - 1 - j) * 8)) &&& 0xFF := by
      intro j hj
      rw [h j (by omega)]
      rw [← Nat.shiftRight_add]
      congr 2
      omega
    rw [ih address (value >>> 8) hpre]
    have hn0 : n + 1 - 1 - n = 0 := by omega
    rw [h n (by omega), hn0]
    simp only [Nat.zero_mul, Nat.shiftRight_zero]
    rw [and_255_eq_mod]
    have hsr : value >>> 8 = value / 256 := by
      rw [Nat.shiftRight_eq_div_pow]
    rw [hsr]
    have hmul := @Nat.mod_mul 256 (256 ^ n) value
    have hpow : (256 : Nat) ^ (n + 1) = 256 * 256 ^ n := by ring
    rw [hpow]
    omega

/-- C5: OVRegister.write of a size-byte register at a base address issues
exactly the byte-writes write_byte(base + size - 1 - i, (value >> 8 i) &
0xFF) for i in [0, size); OVRegister.read reads the addresses base ..
base + size - 1 in increasing order, most significant byte first; and a
read over the byte store produced by a write of the same register returns
the written value modulo 2 ^ (8 size). -/
theorem c5_mmio_endianness (address size value : Nat) (store : Nat → Nat) :
    ovRegister_write address size value =
      (List.range size).map (fun i => (address + size - 1 - i, (value >>> (8 * i)) &&& 0xFF))
    ∧ (ovRegister_read store address size).2 =
        (List.range size).map (fun i => address + i)
    ∧ (ovRegister_read (applyWrites store (ovRegister_write address size value))
        address size).1 = value % 2 ^ (8 * size) := by
  refine ⟨?_, ?_, ?_⟩
  · unfold ovRegister_write
    apply List.map_congr_left
    intro i _
    rw [Nat.mul_comm 8 i]
  · exact ovRegister_read_trace store size address 0 []
  · unfold ovRegister_read
    have hbytes : ∀ i, i < size →
        applyWrites store (ovRegister_write address size value) (address + i) < 256 := by
      intro i hi
      rw [applyWrites_ovRegister_write store value size address i hi, and_255_eq_mod]
      exact Nat.mod_lt _ (by norm_num)
    rw [ovRegister_read_value _ size address 0 [] hbytes]
    rw [bigEndianDigits_foldl _ size address value
      (fun j hj => applyWrites_ovRegister_write store value size address j hj)]
    have hpow : (2 : Nat) ^ (8 * size) = 256 ^ size := by
      rw [Nat.pow_mul]
    rw [hpow]
    simp

/-! ### Claim C8 : last binding wins in the register map -/

/-- Searching after an in-place dict update, looking for the updated key. -/
theorem find?_dictInsert_map_self (k : List Char) (v : Nat × Int) :
    ∀ m : List (List Char × Nat × Int), m.any (fun p => p.1 = k) = true →
    (m.map (fun p => if p.1 = k then (k, v.1, v.2) else p)).find?
      (fun p => p.1 = k) = some (k, v.1, v.2) := by
  intro m
  induction m with
  | nil => intro h; simp at h
  | cons p rest ih =>
    intro h
    by_cases hpk : p.1 = k
    · simp [hpk]
    · have hrest : rest.any (fun p => p.1 = k) = true := by
        simp only [List.any_cons, Bool.or_eq_true, decide_eq_true_eq] at h
        rcases h with h | h
        · exact absurd h hpk
        · exact h
      have hd : decide (p.1 = k) = false := decide_eq_false hpk
      simp only [List.map_cons, List.find?_cons, if_neg hpk, hd]
      exact ih hrest

/-- Searching after an in-place dict update, looking for a different key. -/
theorem find?_dictInsert_map_ne (k k' : List Char) (v : Nat × Int) (hk : ¬ k = k') :
    ∀ m : List (List Char × Nat × Int),
    (m.map (fun p => if p.1 = k then (k, v.1, v.2) else p)).find?
      (fun p => p.1 = k') = m.find? (fun p => p.1 = k') := by
  intro m
  induction m with
  | nil => simp
  | cons p rest ih =>
    by_cases hpk : p.1 = k
    · have hpk' : ¬ p.1 = k' := by rw [hpk]; exact hk
      have hd : decide (k = k') = false := decide_eq_false hk
      have hd' : decide (p.1 = k') = false := decide_eq_false hpk'
      simp only [List.map_cons, List.find?_cons, if_pos hpk, hd, hd']
      exact ih
    · by_cases hpk' : p.1 = k'
      · have hd : decide (p.1 = k') = true := decide_eq_true hpk'
        simp only [List.map_cons, List.find?_cons, if_neg hpk, hd]
      · have hd : decide (p.1 = k') = false := decide_eq_false hpk'
        simp only [List.map_cons, List.find?_cons, if_neg hpk, hd]
        exact ih

/-- Looking up the key just written by a Python dict assignment yields the
assigned value. -/
theorem dictLookup_insert_self (m : List (List Char × Nat × Int))
    (k : List Char) (v : Nat × Int) :
    dictLookup (dictInsert m k v) k = some v := by
  unfold dictLookup dictInsert
  by_cases hany : m.any (fun p => p.1 = k) = true
  · rw [if_pos hany, find?_dictInsert_map_self k v m hany]
    rfl
  · rw [if_neg hany, List.find?_append]
    have hnone : m.find? (fun p => p.1 = k) = none := by
      rw [List.find?_eq_none]
      intro x hx hc
      apply hany
      rw [List.any_eq_true]
      exact ⟨x, hx, hc⟩
    rw [hnone]
    simp

/-- A Python dict assignment to one key does not change lookups of other
keys. -/
theorem dictLookup_insert_ne (m : List (List Char × Nat × Int))
    (k k' : List Char) (v : Nat × Int) (hk : ¬ k = k') :
    dictLookup (dictInsert m k v) k' = dictLookup m k' := by
  unfold dictLookup dictInsert
  by_cases hany : m.any (fun p => p.1 = k) = true
  · rw [if_pos hany, find?_dictInsert_map_ne k k' v hk m]
  · rw [if_neg hany, List.find?_append]
    cases hfind : m.find? (fun p => p.1 = k') with
    | some p => simp
    | none =>
      have hsingle : ([(k, v.1, v.2)] : List (List Char × Nat × Int)).find?
          (fun p => p.1 = k') = none := by
        simp [hk]
      rw [hsingle]
      simp

/-- Processing a register-map file piecewise: when the lines before a split
succeed, the whole file is processed by continuing from their accumulated
map. -/
theorem get_register_map_from_append_ok (l1 : List (List Char)) :
    ∀ (m m1 : List (List Char × Nat × Int)) (l2 : List (List Char)),
    get_register_map_from m l1 = .ok m1 →
    get_register_map_from m (l1 ++ l2) = get_register_map_from m1 l2 := by
  induction l1 with
  | nil =>
    intro m m1 l2 h
    cases h
    rfl
  | cons line rest ih =>
    intro m m1 l2 h
    rw [List.cons_append]
    cases hp : parseMapLine line with
    | error e =>
      rw [show get_register_map_from m (line :: rest) = .error e by
        simp only [get_register_map_from, hp]] at h
      exact Except.noConfusion h
    | ok o =>
      cases o with
      | none =>
        rw [show get_register_map_from m (line :: rest) =
          get_register_map_from m rest by simp only [get_register_map_from, hp]] at h
        simp only [get_register_map_from, hp]
        exact ih m m1 l2 h
      | some entry =>
        obtain ⟨name, value, size⟩ := entry
        rw [show get_register_map_from m (line :: rest) =
          get_register_map_from (dictInsert m name (value, size)) rest by
            simp only [get_register_map_from, hp]] at h
        simp only [get_register_map_from, hp]
        exact ih _ m1 l2 h

/-- When every line parses, processing a register-map file cannot fail. -/
theorem get_register_map_from_ok (lines : List (List Char)) :
    ∀ m, (∀ l ∈ lines, (parseMapLine l).isOk = true) →
    ∃ m2, get_register_map_from m lines = .ok m2 := by
  induction lines with
  | nil => intro m _; exact ⟨m, rfl⟩
  | cons line rest ih =>
    intro m h
    have hline := h line (by simp)
    cases hp : parseMapLine line with
    | error e => rw [hp] at hline; simp [Except.isOk, Except.toBool] at hline
    | ok o =>
      have hrest : ∀ l ∈ rest, (parseMapLine l).isOk = true :=
        fun l hl => h l (by simp [hl])
      cases o with
      | none =>
        obtain ⟨m2, hm2⟩ := ih m hrest
        exact ⟨m2, by simp only [get_register_map_from, hp]; exact hm2⟩
      | some entry =>
        obtain ⟨m2, hm2⟩ := ih (dictInsert m entry.1 (entry.2.1, entry.2.2)) hrest
        exact ⟨m2, by simp only [get_register_map_from, hp]; exact hm2⟩

/-- Lines that do not bind a name do not change its lookup in the
accumulated map. -/
theorem get_register_map_from_lookup_preserved (nm : List Char)
    (lines : List (List Char)) :
    ∀ m m2, (∀ l ∈ lines, ∀ v s, parseMapLine l ≠ .ok (some (nm, v, s))) →
    get_register_map_from m lines = .ok m2 →
    dictLookup m2 nm = dictLookup m nm := by
  induction lines with
  | nil =>
    intro m m2 _ hrun
    cases hrun
    rfl
  | cons line rest ih =>
    intro m m2 hbind hrun
    have hbrest : ∀ l ∈ rest, ∀ v s, parseMapLine l ≠ .ok (some (nm, v, s)) :=
      fun l hl => hbind l (by simp [hl])
    cases hp : parseMapLine line with
    | error e =>
      rw [show get_register_map_from m (line :: rest) =
        .error e by simp only [get_register_map_from, hp]] at hrun
      exact Except.noConfusion hrun
    | ok o =>
      cases o with
      | none =>
        rw [show get_register_map_from m (line :: rest) =
          get_register_map_from m rest by simp only [get_register_map_from, hp]] at hrun
        exact ih m m2 hbrest hrun
      | some entry =>
        obtain ⟨name, value, size⟩ := entry
        rw [show get_register_map_from m (line :: rest) =
          get_register_map_from (dictInsert m name (value, size)) rest by
            simp only [get_register_map_from, hp]] at hrun
        have hne : ¬ name = nm := by
          intro heq
          exact hbind line (by simp) value size (heq ▸ hp)
        rw [ih (dictInsert m name (value, size)) m2 hbrest hrun]
        exact dictLookup_insert_ne m name nm (value, size) hne

/-- C8 (amended): the parser does not reject duplicate names.  For a
register-map file in which every line parses individually, parsing the
whole file succeeds, and when two non-comment lines bind the same NAME and
no later line binds it again, the resulting map carries the later line's
(value, size): the later binding silently wins. -/
theorem c8_last_binding_wins
    (pre mid post : List (List Char)) (lineA lineB : List Char)
    (nm : List Char) (vA vB : Nat) (sA sB : Int)
    (hA : parseMapLine lineA = .ok (some (nm, vA, sA)))
    (hB : parseMapLine lineB = .ok (some (nm, vB, sB)))
    (hparse : ∀ l ∈ pre ++ lineA :: mid ++ lineB :: post, (parseMapLine l).isOk = true)
    (hpost : ∀ l ∈ post, ∀ v s, parseMapLine l ≠ .ok (some (nm, v, s))) :
    ∃ m, get_register_map (pre ++ lineA :: mid ++ lineB :: post) = .ok m
      ∧ dictLookup m nm = some (vB, sB) := by
  obtain ⟨m1, hm1⟩ := get_register_map_from_ok pre []
    (fun l hl => hparse l (by simp [hl]))
  obtain ⟨m2, hm2⟩ := get_register_map_from_ok (lineA :: mid) m1
    (fun l hl => hparse l (by simp at hl ⊢; tauto))
  obtain ⟨mfin, hfin⟩ := get_register_map_from_ok post (dictInsert m2 nm (vB, sB))
    (fun l hl => hparse l (by simp at hl ⊢; tauto))
  have hpre2 : get_register_map_from [] (pre ++ lineA :: mid) = .ok m2 := by
    rw [get_register_map_from_append_ok pre [] m1 _ hm1]
    exact hm2
  have htotal : get_register_map_from []
      (pre ++ lineA :: mid ++ lineB :: post) =
      get_register_map_from (dictInsert m2 nm (vB, sB)) post := by
    rw [get_register_map_from_append_ok (pre ++ lineA :: mid) [] m2 _ hpre2]
    simp only [get_register_map_from, hB]
  refine ⟨mfin, ?_, ?_⟩
  · show get_register_map_from [] _ = _
    rw [htotal]
    exact hfin
  · rw [get_register_map_from_lookup_preserved nm post _ mfin hpost hfin]
    exact dictLookup_insert_self m2 nm (vB, sB)

/-- Witness for c8_last_binding_wins: the two-line file "A = 1", "A = 2"
parses successfully and maps A to (2, 1). -/
theorem c8_last_binding_wins_witness :
    parseMapLine "A = 1".toList = .ok (some (['A'], 1, 1))
    ∧ parseMapLine "A = 2".toList = .ok (some (['A'], 2, 1))
    ∧ (∀ l ∈ ["A = 1".toList, "A = 2".toList], (parseMapLine l).isOk = true)
    ∧ ∃ m, get_register_map ["A = 1".toList, "A = 2".toList] = .ok m
        ∧ dictLookup m ['A'] = some (2, 1) :=
  ⟨rfl, rfl, by decide,
   c8_last_binding_wins [] [] [] "A = 1".toList "A = 2".toList ['A'] 1 2 1 1
     rfl rfl (by decide) (by simp)⟩
